import Mathlib

/-!
Verification of the constraint-aware cursor-trajectory toolkit
(`hcs_package`): a shallow embedding, in Lean 4, of the planning and
noise engine, together with theorems settling the frozen claims about it.

Conventions of the embedding:
* machine floats become exact numbers (`ℚ` where the code is pure
  arithmetic and comparisons, `ℝ` where a square root is taken); every
  value of `ℚ`/`ℝ` is finite, so `np.isfinite` guards are noted where
  they occur and are identities in the model;
* numpy arrays indexed by step become functions `ℕ → ℚ` (entries beyond
  the horizon are irrelevant and proved so where it matters);
* the scipy L-BFGS-B solver is modelled by its contract: it returns some
  point satisfying the box bounds passed to it (and nothing more);
* functions of the repository whose source files are absent
  (`point_and_click_modules/mouse_module.py`,
  `point_and_click_modules/upper_limb_module.py`) are modelled from the
  spec as abstract parameters, marked `Modelled from the spec:`.
-/

namespace HCS

/-! ## Discrete dynamics kernels (`model.py`, lines 154-198 and 304-306) -/

/-- Entry `(k, i)` of the jerk-to-acceleration matrix
`np.tril(np.ones((N, N))) * dt` from `_build_A_acc` (`model.py` line 159).
`k` is the row (state at time `(k+1)·dt`), `i` the column (input step). -/
def build_A_acc (dt : ℚ) (k i : ℕ) : ℚ :=
  (if i ≤ k then 1 else 0) * dt

/-- Entry `(k, i)` of the jerk-to-velocity matrix from
`_build_A_vel_from_jerk` (`model.py` lines 167-174): `(k - i + 0.5) * dt²`
for `i ≤ k`, and `0` otherwise (the array is initialised to zeros and the
inner loop runs over `i ∈ range (k+1)`). -/
def build_A_vel_from_jerk (dt : ℚ) (k i : ℕ) : ℚ :=
  if i ≤ k then ((k : ℚ) - (i : ℚ) + 1/2) * dt ^ 2 else 0

/-- One step of the triple-integrator update used in
`_build_A_pos_from_jerk` (`model.py` lines 189-191):
`(dp, dv, da) ↦ (dp + dv·dt + da·dt²/2 + j·dt³/6, dv + da·dt + j·dt²/2, da + j·dt)`. -/
def impulseStep (dt jv : ℚ) (st : ℚ × ℚ × ℚ) : ℚ × ℚ × ℚ :=
  (st.1 + st.2.1 * dt + st.2.2 * dt ^ 2 / 2 + jv * dt ^ 3 / 6,
   st.2.1 + st.2.2 * dt + jv * dt ^ 2 / 2,
   st.2.2 + jv * dt)

/-- State `(dp, dv, da)` after `n` steps of the triple-integrator recurrence
driven by the jerk sequence `j`, from zero initial conditions — the inner
simulation loop of `_build_A_pos_from_jerk` (`model.py` lines 184-196). -/
def impulseState (dt : ℚ) (j : ℕ → ℚ) : ℕ → ℚ × ℚ × ℚ
  | 0 => (0, 0, 0)
  | n + 1 => impulseStep dt (j n) (impulseState dt j n)

/-- The unit-impulse jerk sequence `j_n = 1` if `n = i` else `0`
(`model.py` line 186). -/
def unitJ (i n : ℕ) : ℚ :=
  if n = i then 1 else 0

/-- Entry `(k, i)` of the jerk-to-position matrix built by unit-impulse
simulation in `_build_A_pos_from_jerk` (`model.py` lines 180-198):
`A_p[k, i]` is the accumulated `dp` after processing steps `0 … k` with a
unit impulse at step `i`. -/
def build_A_pos_from_jerk (dt : ℚ) (k i : ℕ) : ℚ :=
  (impulseState dt (unitJ i) (k + 1)).1

/-- Entry `(k, i)` of the progress integration matrix
`S_mat = np.tril(np.ones((N, N))) * dt` (`model.py` line 306). -/
def S_mat (dt : ℚ) (k i : ℕ) : ℚ :=
  (if i ≤ k then 1 else 0) * dt

/-- Progress trajectory `s_traj = s0 + S_mat @ vs` (`model.py` line 322),
row `k`, with horizon `N`. -/
def s_traj (dt s0 : ℚ) (vs : ℕ → ℚ) (N k : ℕ) : ℚ :=
  s0 + ∑ i ∈ Finset.range N, S_mat dt k i * vs i

/-! Reconstructed state profiles: free response plus kernel action, as in
`generate_mpcc` (`model.py` lines 282-291 and 440-456) and `model`
(`model.py` lines 112-121).  Index `k = 0` is the initial state; index
`k + 1` is the state at time `(k+1)·dt`, i.e. row `k` of the kernels. -/

/-- Reconstructed acceleration profile `ax_free + A_acc @ jx`
(`model.py` lines 290, 440): the free response is the constant `a0`. -/
def recon_acc (a0 dt : ℚ) (j : ℕ → ℚ) : ℕ → ℚ
  | 0 => a0
  | k + 1 => a0 + ∑ i ∈ Finset.range (k + 1), build_A_acc dt k i * j i

/-- Reconstructed velocity profile `vx_free + A_vel @ jx`
(`model.py` lines 286-287, 325): `vx_free = v0 + a0·t`. -/
def recon_vel (v0 a0 dt : ℚ) (j : ℕ → ℚ) : ℕ → ℚ
  | 0 => v0
  | k + 1 =>
      (v0 + a0 * ((k + 1 : ℕ) * dt)) +
        ∑ i ∈ Finset.range (k + 1), build_A_vel_from_jerk dt k i * j i

/-- Reconstructed position profile `px_free + A_pos @ jx`
(`model.py` lines 282-283, 347): `px_free = p0 + v0·t + a0·t²/2`. -/
def recon_pos (p0 v0 a0 dt : ℚ) (j : ℕ → ℚ) : ℕ → ℚ
  | 0 => p0
  | k + 1 =>
      (p0 + v0 * ((k + 1 : ℕ) * dt) + a0 * ((k + 1 : ℕ) * dt) ^ 2 / 2) +
        ∑ i ∈ Finset.range (k + 1), build_A_pos_from_jerk dt k i * j i

/-! ### Closed forms of the impulse simulation -/

lemma impulseState_acc (dt : ℚ) (j : ℕ → ℚ) (n : ℕ) :
    (impulseState dt j n).2.2 = dt * ∑ i ∈ Finset.range n, j i := by
  induction n with
  | zero => simp [impulseState]
  | succ n ih =>
      simp only [impulseState, impulseStep, ih, Finset.sum_range_succ]
      ring

lemma impulseState_vel (dt : ℚ) (j : ℕ → ℚ) (n : ℕ) :
    (impulseState dt j n).2.1 =
      ∑ i ∈ Finset.range n, ((n : ℚ) - 1 - (i : ℚ) + 1/2) * dt ^ 2 * j i := by
  induction n with
  | zero => simp [impulseState]
  | succ n ih =>
      have key : ∀ i ∈ Finset.range n,
          ((n : ℚ) - 1 - (i : ℚ) + 1/2) * dt ^ 2 * j i + dt * j i * dt =
            ((n : ℚ) + 1 - 1 - (i : ℚ) + 1/2) * dt ^ 2 * j i :=
        fun i _ => by ring
      simp only [impulseState, impulseStep, ih, impulseState_acc,
        Finset.sum_range_succ]
      rw [Finset.mul_sum, Finset.sum_mul, ← Finset.sum_add_distrib,
        Finset.sum_congr rfl key]
      push_cast
      ring

lemma impulseState_pos (dt : ℚ) (j : ℕ → ℚ) (n : ℕ) :
    (impulseState dt j n).1 =
      ∑ i ∈ Finset.range n,
        (1/6 + ((n : ℚ) - 1 - (i : ℚ)) * ((n : ℚ) - (i : ℚ)) / 2) * dt ^ 3 * j i := by
  induction n with
  | zero => simp [impulseState]
  | succ n ih =>
      have key : ∀ i ∈ Finset.range n,
          (1/6 + ((n : ℚ) - 1 - (i : ℚ)) * ((n : ℚ) - (i : ℚ)) / 2) * dt ^ 3 * j i +
              ((n : ℚ) - 1 - (i : ℚ) + 1/2) * dt ^ 2 * j i * dt +
              dt * j i * dt ^ 2 / 2 =
            (1/6 + ((n : ℚ) + 1 - 1 - (i : ℚ)) * ((n : ℚ) + 1 - (i : ℚ)) / 2) *
              dt ^ 3 * j i :=
        fun i _ => by ring
      simp only [impulseState, impulseStep, ih, impulseState_vel, impulseState_acc,
        Finset.sum_range_succ]
      rw [Finset.sum_mul, Finset.mul_sum, Finset.sum_mul, Finset.sum_div,
        ← Finset.sum_add_distrib, ← Finset.sum_add_distrib,
        Finset.sum_congr rfl key]
      push_cast
      ring

lemma unitJ_state_eq_zero (dt : ℚ) (i n : ℕ) (h : n ≤ i) :
    impulseState dt (unitJ i) n = (0, 0, 0) := by
  induction n with
  | zero => rfl
  | succ n ih =>
      have hn : n ≤ i := Nat.le_of_succ_le h
      have hne : n ≠ i := Nat.ne_of_lt h
      simp [impulseState, impulseStep, ih hn, unitJ, hne]

/-- Closed form of the unit-impulse position kernel: for `i ≤ k` the entry is
`(1/6 + (k-i)(k-i+1)/2)·dt³`, and it vanishes for `i > k`. -/
lemma build_A_pos_entry (dt : ℚ) (k i : ℕ) :
    build_A_pos_from_jerk dt k i =
      if i ≤ k then (1/6 + ((k : ℚ) - (i : ℚ)) * ((k : ℚ) + 1 - (i : ℚ)) / 2) * dt ^ 3
      else 0 := by
  unfold build_A_pos_from_jerk
  rw [impulseState_pos]
  have : ∀ m ∈ Finset.range (k + 1),
      (1/6 + (((k + 1 : ℕ) : ℚ) - 1 - (m : ℚ)) * (((k + 1 : ℕ) : ℚ) - (m : ℚ)) / 2) *
          dt ^ 3 * unitJ i m =
        if m = i then
          (1/6 + (((k + 1 : ℕ) : ℚ) - 1 - (m : ℚ)) * (((k + 1 : ℕ) : ℚ) - (m : ℚ)) / 2) *
            dt ^ 3
        else 0 := by
    intro m _
    by_cases hm : m = i <;> simp [unitJ, hm]
  rw [Finset.sum_congr rfl this, Finset.sum_ite_eq' (Finset.range (k + 1))]
  by_cases hik : i ≤ k
  · rw [if_pos (Finset.mem_range.mpr (Nat.lt_succ_of_le hik)), if_pos hik]
    push_cast
    ring
  · rw [if_neg (by simpa using hik), if_neg hik]

/-! ### Reconstructed profiles agree with the impulse simulation -/

lemma recon_acc_eq (a0 dt : ℚ) (j : ℕ → ℚ) (k : ℕ) :
    recon_acc a0 dt j k = a0 + (impulseState dt j k).2.2 := by
  cases k with
  | zero => simp [recon_acc, impulseState]
  | succ k =>
      have hs : ∀ i ∈ Finset.range (k + 1),
          build_A_acc dt k i * j i = dt * j i := by
        intro i hi
        have h : i ≤ k := Nat.lt_succ_iff.mp (Finset.mem_range.mp hi)
        rw [build_A_acc, if_pos h, one_mul]
      simp only [recon_acc, impulseState_acc]
      rw [Finset.sum_congr rfl hs, ← Finset.mul_sum]

lemma recon_vel_eq (v0 a0 dt : ℚ) (j : ℕ → ℚ) (k : ℕ) :
    recon_vel v0 a0 dt j k = v0 + a0 * ((k : ℚ) * dt) + (impulseState dt j k).2.1 := by
  cases k with
  | zero => simp [recon_vel, impulseState]
  | succ k =>
      have hs : ∀ i ∈ Finset.range (k + 1),
          build_A_vel_from_jerk dt k i * j i =
            (((k + 1 : ℕ) : ℚ) - 1 - (i : ℚ) + 1/2) * dt ^ 2 * j i := by
        intro i hi
        have h : i ≤ k := Nat.lt_succ_iff.mp (Finset.mem_range.mp hi)
        rw [build_A_vel_from_jerk, if_pos h]
        push_cast
        ring
      simp only [recon_vel, impulseState_vel]
      rw [Finset.sum_congr rfl hs]

lemma recon_pos_eq (p0 v0 a0 dt : ℚ) (j : ℕ → ℚ) (k : ℕ) :
    recon_pos p0 v0 a0 dt j k =
      p0 + v0 * ((k : ℚ) * dt) + a0 * ((k : ℚ) * dt) ^ 2 / 2 +
        (impulseState dt j k).1 := by
  cases k with
  | zero => simp [recon_pos, impulseState]
  | succ k =>
      have hs : ∀ i ∈ Finset.range (k + 1),
          build_A_pos_from_jerk dt k i * j i =
            (1/6 + (((k + 1 : ℕ) : ℚ) - 1 - (i : ℚ)) * (((k + 1 : ℕ) : ℚ) - (i : ℚ)) / 2) *
              dt ^ 3 * j i := by
        intro i hi
        have h : i ≤ k := Nat.lt_succ_iff.mp (Finset.mem_range.mp hi)
        rw [build_A_pos_entry, if_pos h]
        push_cast
        ring
      simp only [recon_pos, impulseState_pos]
      rw [Finset.sum_congr rfl hs]

/-! ## MPCC decision variables, bounds and solver model
(`generate_mpcc`, `model.py` lines 256-498) -/

/-- Jerk scale factor `SCALE_JERK = 1000.0` (`model.py` line 259). -/
def SCALE_JERK : ℚ := 1000

/-- Virtual-speed scale `SCALE_VS = max(0.1, desired_speed)`
(`model.py` line 262). -/
def SCALE_VS (desired_speed : ℚ) : ℚ :=
  max (1/10) desired_speed

/-- The box bounds actually passed to the `minimize` call of `generate_mpcc`
(`model.py` lines 465-471 and 478-484): the `2N` jerk variables are
unbounded, and the `virtual_speed` block `x[2N..3N-1]` is bounded below
by `0`.  This predicate is the entire feasible set of the solved problem:
the four acceleration inequality constraints built at lines 432-463 are
collected in the local list `constraints` but that list is never passed to
`minimize`, and L-BFGS-B handles only box bounds.  The solver is modelled
by its contract: `result.x` satisfies these bounds and nothing more. -/
def mpccBounds (N : ℕ) (x : ℕ → ℚ) : Prop :=
  ∀ i, i < N → 0 ≤ x (2 * N + i)

/-- The initial guess `x0_guess` (`model.py` lines 474-475): zero jerk and
`virtual_speed = desired_speed / SCALE_VS`. -/
def x0_guess (N : ℕ) (desired_speed : ℚ) (i : ℕ) : ℚ :=
  if 2 * N ≤ i then desired_speed / SCALE_VS desired_speed else 0

/-- Jerk-x controls unpacked from the solution, `jx = x[0..N-1] * SCALE_JERK`
(`unpack_x`, `model.py` lines 308-312). -/
def controls_jx (x : ℕ → ℚ) (i : ℕ) : ℚ :=
  x i * SCALE_JERK

/-- Third column of the returned `controls` array:
`vs = x[2N..3N-1] * SCALE_VS` (`model.py` lines 308-312 and 487-489). -/
def controls_vs (N : ℕ) (desired_speed : ℚ) (x : ℕ → ℚ) (i : ℕ) : ℚ :=
  x (2 * N + i) * SCALE_VS desired_speed

/-! ## Claim theorems for the MPCC planner -/

/-- C1: the claim says the reconstructed acceleration profile from
`generate_mpcc` always lies within `[-acc_max, acc_max]`.  The code builds
the four acceleration inequality constraints (`model.py` lines 432-463) but
never passes them to `minimize` (line 478 passes only `bounds` to
L-BFGS-B), so the solved problem's feasible set is exactly `mpccBounds` and
nothing bounds the acceleration.  Concretely, with `dt = 1/20`,
`ax0 = 200`, `acc_max = 100` and `desired_speed = 12/100`, the solver's own
initial guess (zero jerk) satisfies every bound actually imposed, yet its
reconstructed acceleration is the constant `200`, outside `[-100, 100]`. -/
theorem C1_acc_limit_not_enforced :
    mpccBounds 6 (x0_guess 6 (12/100)) ∧
    (∀ k, k < 6 →
      recon_acc 200 (1/20) (controls_jx (x0_guess 6 (12/100))) (k + 1) = 200) ∧
    ¬ (|(200 : ℚ)| ≤ 100) := by
  refine ⟨?_, ?_, by norm_num⟩
  · intro i _
    have h : 2 * 6 ≤ 2 * 6 + i := Nat.le_add_right _ _
    rw [x0_guess, if_pos h]
    rw [show SCALE_VS (12/100) = 12/100 from max_eq_right (by norm_num)]
    norm_num
  · intro k hk
    have hz : ∀ i ∈ Finset.range (k + 1),
        build_A_acc (1/20) k i * controls_jx (x0_guess 6 (12/100)) i = 0 := by
      intro i hi
      have hik : i < 6 :=
        lt_of_le_of_lt (Nat.lt_succ_iff.mp (Finset.mem_range.mp hi)) hk
      have hno : ¬ (2 * 6 ≤ i) := by omega
      simp [controls_jx, x0_guess, hno]
    rw [recon_acc, Finset.sum_congr rfl hz]
    simp

/-- Witness for C1: the violation at the first horizon step. -/
theorem C1_acc_limit_not_enforced_witness :
    recon_acc 200 (1/20) (controls_jx (x0_guess 6 (12/100))) 1 = 200 ∧
    ¬ (|(200 : ℚ)| ≤ 100) :=
  ⟨C1_acc_limit_not_enforced.2.1 0 (by norm_num),
   C1_acc_limit_not_enforced.2.2⟩

/-- C2: for every input to `generate_mpcc`, the `virtual_speed` column of
the returned controls is nonnegative: the solver's box bounds force
`x[2N+i] ≥ 0` (`model.py` lines 465-471), and the unpacking multiplies by
`SCALE_VS = max(0.1, desired_speed) > 0` (lines 262, 311). -/
theorem C2_virtual_speed_nonneg (N : ℕ) (desired_speed : ℚ) (x : ℕ → ℚ)
    (hx : mpccBounds N x) (i : ℕ) (hi : i < N) :
    0 ≤ controls_vs N desired_speed x i := by
  have h1 : 0 ≤ x (2 * N + i) := hx i hi
  have h2 : (0 : ℚ) < SCALE_VS desired_speed :=
    lt_of_lt_of_le (by norm_num) (le_max_left _ _)
  exact mul_nonneg h1 h2.le

/-- Witness for C2 at a concrete bound-feasible solver output. -/
theorem C2_virtual_speed_nonneg_witness :
    mpccBounds 2 (fun _ => 0) ∧ 0 ≤ controls_vs 2 (1/5) (fun _ => 0) 0 :=
  ⟨fun _ _ => le_refl 0,
   C2_virtual_speed_nonneg 2 (1/5) (fun _ => 0) (fun _ _ => le_refl 0) 0 (by norm_num)⟩

/-- C7: the discrete dynamics kernels have the stated closed forms.  The
jerk-to-acceleration matrix is lower-triangular with every nonzero entry
`dt`; the jerk-to-velocity matrix has entry `(k-i+1/2)·dt²` for `i ≤ k` and
`0` otherwise; the jerk-to-position matrix built by unit-impulse simulation
is such that the reconstructed profiles satisfy the discrete update
`p_{k+1} = p_k + v_k·dt + a_k·dt²/2 + j_k·dt³/6` (together with the matching
velocity and acceleration updates); and the progress row `k` of
`s0 + S_mat @ vs` equals `s0 + dt · cumsum(vs)` up to index `k`. -/
theorem C7_dynamics_kernels (dt p0 v0 a0 s0 : ℚ) (j vs : ℕ → ℚ)
    (N k i : ℕ) (hk : k < N) :
    build_A_acc dt k i = (if i ≤ k then dt else 0) ∧
    build_A_vel_from_jerk dt k i =
      (if i ≤ k then ((k : ℚ) - (i : ℚ) + 1/2) * dt ^ 2 else 0) ∧
    (k < i → build_A_pos_from_jerk dt k i = 0) ∧
    recon_pos p0 v0 a0 dt j (k + 1) =
      recon_pos p0 v0 a0 dt j k + recon_vel v0 a0 dt j k * dt +
        recon_acc a0 dt j k * dt ^ 2 / 2 + j k * dt ^ 3 / 6 ∧
    recon_vel v0 a0 dt j (k + 1) =
      recon_vel v0 a0 dt j k + recon_acc a0 dt j k * dt + j k * dt ^ 2 / 2 ∧
    recon_acc a0 dt j (k + 1) = recon_acc a0 dt j k + j k * dt ∧
    s_traj dt s0 vs N k = s0 + dt * ∑ m ∈ Finset.range (k + 1), vs m := by
  refine ⟨?_, rfl, ?_, ?_, ?_, ?_, ?_⟩
  · rw [build_A_acc]
    split_ifs <;> ring
  · intro hki
    rw [build_A_pos_entry, if_neg (Nat.not_le_of_lt hki)]
  · rw [recon_pos_eq, recon_pos_eq, recon_vel_eq, recon_acc_eq]
    simp only [impulseState, impulseStep]
    push_cast
    ring
  · rw [recon_vel_eq, recon_vel_eq, recon_acc_eq]
    simp only [impulseState, impulseStep]
    push_cast
    ring
  · rw [recon_acc_eq, recon_acc_eq]
    simp only [impulseState, impulseStep]
    ring
  · rw [s_traj]
    have hsub : Finset.range (k + 1) ⊆ Finset.range N :=
      Finset.range_subset.mpr (Nat.succ_le_of_lt hk)
    have hz : ∀ m ∈ Finset.range N, m ∉ Finset.range (k + 1) →
        S_mat dt k m * vs m = 0 := by
      intro m _ hm
      have : ¬ m ≤ k := fun h => hm (Finset.mem_range.mpr (Nat.lt_succ_of_le h))
      simp [S_mat, this]
    rw [← Finset.sum_subset hsub hz]
    have hs : ∀ m ∈ Finset.range (k + 1), S_mat dt k m * vs m = dt * vs m := by
      intro m hm
      have : m ≤ k := Nat.lt_succ_iff.mp (Finset.mem_range.mp hm)
      simp [S_mat, this]
    rw [Finset.sum_congr rfl hs, ← Finset.mul_sum]

/-- Witness for C7 at a concrete horizon and step. -/
theorem C7_dynamics_kernels_witness :
    (1 : ℕ) < 2 ∧
    (build_A_acc (1/2) 1 0 = (if 0 ≤ 1 then (1/2 : ℚ) else 0) ∧
    build_A_vel_from_jerk (1/2) 1 0 =
      (if 0 ≤ 1 then ((1 : ℚ) - (0 : ℚ) + 1/2) * (1/2) ^ 2 else 0) ∧
    ((1 : ℕ) < 0 → build_A_pos_from_jerk (1/2) 1 0 = 0) ∧
    recon_pos 0 1 0 (1/2) (fun _ => 1) 2 =
      recon_pos 0 1 0 (1/2) (fun _ => 1) 1 + recon_vel 1 0 (1/2) (fun _ => 1) 1 * (1/2) +
        recon_acc 0 (1/2) (fun _ => 1) 1 * (1/2) ^ 2 / 2 + 1 * (1/2) ^ 3 / 6 ∧
    recon_vel 1 0 (1/2) (fun _ => 1) 2 =
      recon_vel 1 0 (1/2) (fun _ => 1) 1 + recon_acc 0 (1/2) (fun _ => 1) 1 * (1/2) +
        1 * (1/2) ^ 2 / 2 ∧
    recon_acc 0 (1/2) (fun _ => 1) 2 = recon_acc 0 (1/2) (fun _ => 1) 1 + 1 * (1/2) ∧
    s_traj (1/2) 0 (fun _ => 1) 2 1 = 0 + (1/2) * ∑ m ∈ Finset.range 2, 1) :=
  ⟨by norm_num, C7_dynamics_kernels (1/2) 0 1 0 0 (fun _ => 1) (fun _ => 1) 2 1 0 (by norm_num)⟩

/-! ## Waypoint validation (`ReferencePath._validate_and_prepare_waypoints`,
`reference_path.py` lines 58-119) -/

/-- A waypoint as received by `_validate_and_prepare_waypoints`: each
coordinate is a machine float, modelled as `Option ℚ` where `none` stands
for a non-finite value (NaN or ±inf) and `some q` for the finite value. -/
abbrev RawPoint : Type := Option ℚ × Option ℚ

/-- Keep the waypoints whose coordinates are all finite
(`np.isfinite(waypoints).all(axis=1)` filtering, lines 71-73). -/
def finiteFilter (ws : List RawPoint) : List (ℚ × ℚ) :=
  ws.filterMap fun p =>
    match p with
    | (some x, some y) => some (x, y)
    | _ => none

/-- Squared distance between two points.  The source compares
`np.linalg.norm(diff) > 1e-10` (line 82); since the norm is nonnegative
this holds iff the squared distance exceeds `(1e-10)² = 1e-20`, the exact
rational comparison used here. -/
def dist2 (p q : ℚ × ℚ) : ℚ :=
  (q.1 - p.1) ^ 2 + (q.2 - p.2) ^ 2

/-- Squared near-duplicate tolerance `(1e-10)²` (line 82). -/
def dupTol2 : ℚ :=
  1 / 10 ^ 20

/-- Duplicate removal of lines 78-83 past the first point: `np.diff` is
taken on the whole filtered array, so each point after the first is kept
iff its distance to its predecessor in that array (kept or dropped)
exceeds `1e-10`. -/
def dedupGo (prev : ℚ × ℚ) : List (ℚ × ℚ) → List (ℚ × ℚ)
  | [] => []
  | q :: t => if dupTol2 < dist2 prev q then q :: dedupGo q t else dedupGo q t

/-- Duplicate removal of lines 78-83: the first point is always kept
(`keep_mask = [True] ++ (dists > 1e-10)`). -/
def dedupKeep : List (ℚ × ℚ) → List (ℚ × ℚ)
  | [] => []
  | p :: t => p :: dedupGo p t

/-- The raise decisions of `_validate_and_prepare_waypoints` (lines 74-75
and 86-87): error when every point was non-finite, or when fewer than two
points survive the duplicate removal (which line 78 only applies when more
than one point is present).  The later synthesis steps (midpoint insertion,
perpendicular offsets and the collinearity nudge, lines 89-117) modify the
surviving points but cannot raise, so they are irrelevant to the raise
decision and omitted; on success the deduplicated list is returned. -/
def prepareWaypoints (ws : List RawPoint) : Except String (List (ℚ × ℚ)) :=
  let finite := finiteFilter ws
  if finite.length = 0 then Except.error "All waypoints are invalid"
  else
    let deduped := if 1 < finite.length then dedupKeep finite else finite
    if deduped.length < 2 then Except.error "Need at least 2 distinct waypoints"
    else Except.ok deduped

/-- Whether a construction outcome is the invalid-path error. -/
def raisesError {α : Type} : Except String α → Bool
  | Except.error _ => true
  | Except.ok _ => false

/-- Claim-side definition, following the words of the spec sentence: the
points remaining after removing non-finite waypoints and removing
consecutive points at distance at most `1e-10`. -/
def specCleaned (ws : List RawPoint) : List (ℚ × ℚ) :=
  dedupKeep (finiteFilter ws)

lemma mem_dedupGo (p q : ℚ × ℚ) (hd : dupTol2 < dist2 p q)
    (l1 l2 : List (ℚ × ℚ)) :
    ∀ prev, q ∈ dedupGo prev (l1 ++ p :: q :: l2) := by
  induction l1 with
  | nil =>
      intro prev
      simp only [List.nil_append, dedupGo]
      rw [if_pos hd]
      split_ifs <;> simp
  | cons x t ih =>
      intro prev
      simp only [List.cons_append, dedupGo]
      split_ifs <;> simp [ih x]

lemma dedupKeep_two_le (l1 : List (ℚ × ℚ)) (p q : ℚ × ℚ) (l2 : List (ℚ × ℚ))
    (hd : dupTol2 < dist2 p q) :
    2 ≤ (dedupKeep (l1 ++ p :: q :: l2)).length := by
  cases l1 with
  | nil =>
      have hq : q ∈ dedupGo p (q :: l2) := by
        simp only [dedupGo]
        rw [if_pos hd]
        simp
      have hpos : 0 < (dedupGo p (q :: l2)).length :=
        List.length_pos.mpr (List.ne_nil_of_mem hq)
      simp only [List.nil_append, dedupKeep, List.length_cons]
      omega
  | cons x t =>
      have hq : q ∈ dedupGo x (t ++ p :: q :: l2) := mem_dedupGo p q hd t l2 x
      have hpos : 0 < (dedupGo x (t ++ p :: q :: l2)).length :=
        List.length_pos.mpr (List.ne_nil_of_mem hq)
      simp only [List.cons_append, dedupKeep, List.length_cons]
      omega

/-- Concrete waypoint list refuting the second half of C3: three finite
points forming a chain of near-duplicates.  The endpoints are distinct
(their distance `2e-10` even exceeds the `1e-10` tolerance), yet every
consecutive distance is at most `1e-10`, so deduplication keeps only the
first point and construction raises. -/
def chainWaypoints : List RawPoint :=
  [(some 0, some 0), (some (1 / 10 ^ 10), some 0), (some (2 / 10 ^ 10), some 0)]

/-- C3 counterexample: `chainWaypoints` contains two distinct finite points
(even two at distance above the tolerance), yet construction raises the
invalid-path error, refuting the claim that at least two distinct finite
points suffice. -/
theorem C3_counterexample_chain :
    raisesError (prepareWaypoints chainWaypoints) = true ∧
    ((0 : ℚ), (0 : ℚ)) ∈ finiteFilter chainWaypoints ∧
    ((2 / 10 ^ 10 : ℚ), (0 : ℚ)) ∈ finiteFilter chainWaypoints ∧
    ((0 : ℚ), (0 : ℚ)) ≠ ((2 / 10 ^ 10 : ℚ), (0 : ℚ)) ∧
    dupTol2 < dist2 (0, 0) (2 / 10 ^ 10, 0) := by
  have hf : finiteFilter chainWaypoints =
      [((0 : ℚ), (0 : ℚ)), (1 / 10 ^ 10, 0), (2 / 10 ^ 10, 0)] := rfl
  have e1 : ¬ dupTol2 < dist2 (0, 0) (1 / 10 ^ 10, 0) := by
    rw [dupTol2, dist2]
    norm_num
  have e2 : ¬ dupTol2 < dist2 (1 / 10 ^ 10, 0) (2 / 10 ^ 10, 0) := by
    rw [dupTol2, dist2]
    norm_num
  have hded : dedupKeep [((0 : ℚ), (0 : ℚ)), (1 / 10 ^ 10, 0), (2 / 10 ^ 10, 0)] =
      [((0 : ℚ), (0 : ℚ))] := by
    simp only [dedupKeep, dedupGo]
    rw [if_neg e1, if_neg e2]
  refine ⟨?_, ?_, ?_, ?_, ?_⟩
  · have h1 : 1 < ([((0 : ℚ), (0 : ℚ)), (1 / 10 ^ 10, 0),
        (2 / 10 ^ 10, 0)] : List (ℚ × ℚ)).length := by simp
    simp only [prepareWaypoints, hf]
    rw [if_neg (by simp), if_pos h1, hded]
    rw [if_pos (by simp)]
    rfl
  · rw [hf]; simp
  · rw [hf]; simp
  · intro h
    have h1 := congrArg Prod.fst h
    norm_num at h1
  · rw [dupTol2, dist2]
    norm_num

/-- C3 (amended): construction raises the invalid-path error iff, after
removing non-finite waypoints and removing consecutive points at distance
at most `1e-10`, fewer than 2 points remain; and for every waypoint list in
which two points that are adjacent after the non-finite filtering lie at
distance above `1e-10`, construction does not raise for that reason.  (The
original sufficient condition — merely containing two distinct finite
points — fails on `chainWaypoints`.) -/
theorem C3_invalid_path_error_iff (ws : List RawPoint) :
    (raisesError (prepareWaypoints ws) = true ↔ (specCleaned ws).length < 2) ∧
    (∀ l1 p q l2, finiteFilter ws = l1 ++ p :: q :: l2 →
      dupTol2 < dist2 p q → raisesError (prepareWaypoints ws) = false) := by
  constructor
  · cases hf : finiteFilter ws with
    | nil => simp [prepareWaypoints, hf, specCleaned, raisesError, dedupKeep]
    | cons p t =>
        cases t with
        | nil => simp [prepareWaypoints, hf, specCleaned, raisesError, dedupKeep, dedupGo]
        | cons q t' =>
            have h0 : ¬ (p :: q :: t').length = 0 := by simp
            have h1 : 1 < (p :: q :: t').length := by
              simp only [List.length_cons]
              omega
            simp only [prepareWaypoints, hf, if_neg h0, if_pos h1, specCleaned,
              dedupKeep]
            split_ifs with h2 <;> simp_all [raisesError, dedupKeep]
  · intro l1 p q l2 hf hd
    have h2 : 2 ≤ (dedupKeep (finiteFilter ws)).length := by
      rw [hf]; exact dedupKeep_two_le l1 p q l2 hd
    have hlen : 2 ≤ (finiteFilter ws).length := by
      rw [hf]; simp only [List.length_append, List.length_cons]; omega
    have h0 : ¬ (finiteFilter ws).length = 0 := by omega
    have h1 : 1 < (finiteFilter ws).length := by omega
    simp only [prepareWaypoints, if_neg h0, if_pos h1,
      if_neg (by omega : ¬ (dedupKeep (finiteFilter ws)).length < 2)]
    rfl

/-- Witness for C3 at a concrete well-separated waypoint list. -/
theorem C3_invalid_path_error_iff_witness :
    finiteFilter [((some 0 : Option ℚ), (some 0 : Option ℚ)), (some 1, some 0)] =
      [] ++ ((0 : ℚ), (0 : ℚ)) :: ((1 : ℚ), (0 : ℚ)) :: [] ∧
    dupTol2 < dist2 (0, 0) (1, 0) ∧
    raisesError (prepareWaypoints
      [((some 0 : Option ℚ), (some 0 : Option ℚ)), (some 1, some 0)]) = false :=
  ⟨rfl, by rw [dupTol2, dist2]; norm_num,
   (C3_invalid_path_error_iff _).2 [] (0, 0) (1, 0) [] rfl
     (by rw [dupTol2, dist2]; norm_num)⟩

/-! ## Arclength table (`ReferencePath.__init__`, `reference_path.py`
lines 43-50) -/

/-- Running cumulative sums from `a`, matching `np.cumsum` (line 48). -/
def cumsumFrom (a : ℝ) : List ℝ → List ℝ
  | [] => []
  | x :: t => (a + x) :: cumsumFrom (a + x) t

/-- Chord lengths `ds` between consecutive dense samples (lines 46-47).
The sample list stands for the 1000 points `splev(u_dense, tck)`; `splev`
is external scipy code, so the samples are an arbitrary parameter here. -/
noncomputable def chordLengths (pts : List (ℝ × ℝ)) : List ℝ :=
  (pts.zip pts.tail).map fun pq =>
    Real.sqrt ((pq.2.1 - pq.1.1) ^ 2 + (pq.2.2 - pq.1.2) ^ 2)

/-- The arclength table `np.concatenate([[0], np.cumsum(ds)])` (line 48). -/
noncomputable def arclengthTable (pts : List (ℝ × ℝ)) : List ℝ :=
  0 :: cumsumFrom 0 (chordLengths pts)

/-- `total_length = arclengths[-1]` (line 50). -/
noncomputable def total_length (pts : List (ℝ × ℝ)) : ℝ :=
  (arclengthTable pts).getLast (List.cons_ne_nil 0 _)

lemma chordLengths_nonneg (pts : List (ℝ × ℝ)) :
    ∀ x ∈ chordLengths pts, 0 ≤ x := by
  intro x hx
  rcases List.mem_map.mp hx with ⟨pq, _, rfl⟩
  exact Real.sqrt_nonneg _

lemma cumsumFrom_chain (l : List ℝ) (hl : ∀ x ∈ l, 0 ≤ x) :
    ∀ a, List.Chain' (· ≤ ·) (a :: cumsumFrom a l) := by
  induction l with
  | nil => intro a; simp [cumsumFrom]
  | cons x t ih =>
      intro a
      have hx : 0 ≤ x := hl x (List.mem_cons_self x t)
      have ht : ∀ y ∈ t, 0 ≤ y := fun y hy => hl y (List.mem_cons_of_mem x hy)
      simp only [cumsumFrom]
      exact List.Chain'.cons (by linarith) (ih ht (a + x))

lemma cumsumFrom_last_ge (l : List ℝ) (hl : ∀ x ∈ l, 0 ≤ x) :
    ∀ a, a ≤ (a :: cumsumFrom a l).getLast (List.cons_ne_nil a _) := by
  induction l with
  | nil => intro a; simp [cumsumFrom]
  | cons x t ih =>
      intro a
      have hx : 0 ≤ x := hl x (List.mem_cons_self x t)
      have ht : ∀ y ∈ t, 0 ≤ y := fun y hy => hl y (List.mem_cons_of_mem x hy)
      have step := ih ht (a + x)
      calc a ≤ a + x := by linarith
        _ ≤ ((a + x) :: cumsumFrom (a + x) t).getLast (List.cons_ne_nil _ _) := step
        _ = (a :: (a + x) :: cumsumFrom (a + x) t).getLast (List.cons_ne_nil a _) := by
            rw [List.getLast_cons (List.cons_ne_nil _ _)]
        _ = (a :: cumsumFrom a (x :: t)).getLast (List.cons_ne_nil a _) := by
            simp [cumsumFrom]

/-- Shared helper: the last table entry is nonnegative. -/
lemma total_length_nonneg (pts : List (ℝ × ℝ)) : 0 ≤ total_length pts :=
  cumsumFrom_last_ge (chordLengths pts) (chordLengths_nonneg pts) 0

/-- C4: for every sample list of a constructed `ReferencePath`, the
precomputed arclength table is monotonically non-decreasing, its first
entry is `0`, and `total_length` (its last entry) is nonnegative.  The
table is never mutated after `__init__`: every query in the embedding is a
pure function of the path data, so immutability holds by construction. -/
theorem C4_arclength_table_invariants (pts : List (ℝ × ℝ)) :
    List.Chain' (· ≤ ·) (arclengthTable pts) ∧
    (arclengthTable pts).head? = some 0 ∧
    0 ≤ total_length pts :=
  ⟨cumsumFrom_chain (chordLengths pts) (chordLengths_nonneg pts) 0,
   rfl, total_length_nonneg pts⟩

/-! ## Arclength-argument clamping (`_theta_to_u`, `reference_path.py`
lines 234-240; `__call__` lines 52-56; `tangent` lines 121-129;
`curvature` lines 136-147) -/

/-- `np.clip(theta, 0.0, total_length)` (line 236): numpy computes
`min(amax, max(a, amin))`. -/
noncomputable def npClip (x lo hi : ℝ) : ℝ :=
  min hi (max x lo)

open Classical in
/-- Linear interpolation `np.interp(x, xp, fp)` over paired knots (line
237): values below the first knot clamp to the first value, above the last
knot to the last value, and between consecutive knots the standard linear
formula applies.  (When two consecutive knots coincide, Lean's division by
zero yields `0`; a strictly increasing table never hits that case.) -/
noncomputable def npInterp (x : ℝ) : List (ℝ × ℝ) → ℝ
  | [] => 0
  | [(_, y0)] => y0
  | (x0, y0) :: (x1, y1) :: t =>
      if x ≤ x0 then y0
      else if x ≤ x1 then y0 + (y1 - y0) * (x - x0) / (x1 - x0)
      else npInterp x ((x1, y1) :: t)

/-- `_theta_to_u` (lines 234-240): clip the arclength to
`[0, total_length]`, then interpolate the table against `u_dense`. -/
noncomputable def theta_to_u (pts : List (ℝ × ℝ)) (us : List ℝ) (θ : ℝ) : ℝ :=
  npInterp (npClip θ 0 (total_length pts)) ((arclengthTable pts).zip us)

/-- `__call__` (lines 52-56): evaluate the spline at `u`.  `splev` is
external scipy code, abstracted as the function `spl` of `u`. -/
noncomputable def pathEval (spl : ℝ → ℝ × ℝ) (pts : List (ℝ × ℝ)) (us : List ℝ)
    (θ : ℝ) : ℝ × ℝ :=
  spl (theta_to_u pts us θ)

open Classical in
/-- `tangent` (lines 121-129): first spline derivative at `u` (abstracted
as `d1`), normalised; the degenerate near-zero case returns the fixed
heading `(1, 0)`. -/
noncomputable def tangentEval (d1 : ℝ → ℝ × ℝ) (pts : List (ℝ × ℝ)) (us : List ℝ)
    (θ : ℝ) : ℝ × ℝ :=
  let t := d1 (theta_to_u pts us θ)
  let n := Real.sqrt (t.1 ^ 2 + t.2 ^ 2)
  if n < 1 / 10 ^ 9 then (1, 0) else (t.1 / n, t.2 / n)

open Classical in
/-- `curvature` (lines 136-147): `(x'y'' - y'x'') / (x'² + y'²)^1.5` at
`u`, with the spline derivatives abstracted as `d1`, `d2`, and `0` when the
denominator is below `1e-12`. -/
noncomputable def curvatureEval (d1 d2 : ℝ → ℝ × ℝ) (pts : List (ℝ × ℝ))
    (us : List ℝ) (θ : ℝ) : ℝ :=
  let dq := d1 (theta_to_u pts us θ)
  let ddq := d2 (theta_to_u pts us θ)
  let den := (dq.1 ^ 2 + dq.2 ^ 2) ^ ((3 : ℝ) / 2)
  if den < 1 / 10 ^ 12 then 0 else (dq.1 * ddq.2 - dq.2 * ddq.1) / den

lemma theta_to_u_clamp_low (pts : List (ℝ × ℝ)) (us : List ℝ) (θ : ℝ)
    (h : θ ≤ 0) : theta_to_u pts us θ = theta_to_u pts us 0 := by
  unfold theta_to_u npClip
  rw [max_eq_right h, max_self]

lemma theta_to_u_clamp_high (pts : List (ℝ × ℝ)) (us : List ℝ) (θ : ℝ)
    (h : total_length pts ≤ θ) :
    theta_to_u pts us θ = theta_to_u pts us (total_length pts) := by
  have hL : 0 ≤ total_length pts := total_length_nonneg pts
  unfold theta_to_u npClip
  rw [max_eq_left (le_trans hL h), max_eq_left hL,
    min_eq_left h, min_self]

/-- C10: every geometric query clamps its arclength argument to
`[0, total_length]`: for `θ ≤ 0` the position, tangent and curvature agree
with their values at `0`, and for `θ ≥ total_length` with their values at
`total_length`.  In the embedding all queries are total functions, so no
out-of-range `θ` can raise. -/
theorem C10_queries_clamp_theta (spl d1 d2 : ℝ → ℝ × ℝ)
    (pts : List (ℝ × ℝ)) (us : List ℝ) (θ : ℝ) :
    (θ ≤ 0 →
      pathEval spl pts us θ = pathEval spl pts us 0 ∧
      tangentEval d1 pts us θ = tangentEval d1 pts us 0 ∧
      curvatureEval d1 d2 pts us θ = curvatureEval d1 d2 pts us 0) ∧
    (total_length pts ≤ θ →
      pathEval spl pts us θ = pathEval spl pts us (total_length pts) ∧
      tangentEval d1 pts us θ = tangentEval d1 pts us (total_length pts) ∧
      curvatureEval d1 d2 pts us θ = curvatureEval d1 d2 pts us (total_length pts)) := by
  constructor
  · intro h
    rw [pathEval, pathEval, tangentEval, tangentEval, curvatureEval, curvatureEval,
      theta_to_u_clamp_low pts us θ h]
    exact ⟨rfl, rfl, rfl⟩
  · intro h
    rw [pathEval, pathEval, tangentEval, tangentEval, curvatureEval, curvatureEval,
      theta_to_u_clamp_high pts us θ h]
    exact ⟨rfl, rfl, rfl⟩

/-- Witness for C10 on a concrete two-sample path and `θ = -1`. -/
theorem C10_queries_clamp_theta_witness :
    (-1 : ℝ) ≤ 0 ∧
    pathEval (fun u => (u, u)) [((0 : ℝ), (0 : ℝ)), (1, 0)] [0, 1] (-1) =
      pathEval (fun u => (u, u)) [((0 : ℝ), (0 : ℝ)), (1, 0)] [0, 1] 0 :=
  ⟨by norm_num,
   ((C10_queries_clamp_theta (fun u => (u, u)) (fun _ => (1, 0)) (fun _ => (0, 0))
     [((0 : ℝ), (0 : ℝ)), (1, 0)] [0, 1] (-1)).1 (by norm_num)).1⟩

/-! ## Corridor offset optimizer (`generate_optimal_reference_path`,
`reference_path.py` lines 355-471) -/

/-- Half-width bound applied at every knot:
`half_w = np.maximum(0.5*tunnel_width - margin, 1e-6)` (lines 405-406). -/
def half_w (width margin : ℚ) : ℚ :=
  max (width / 2 - margin) (1 / 10 ^ 6)

/-- Lower bound for the offset at knot `k` of `N` (lines 429-432):
`-half_w`, with both endpoints pinned to `0`. -/
def offsetLb (N : ℕ) (width margin : ℚ) (k : ℕ) : ℚ :=
  if k = 0 ∨ k = N - 1 then 0 else -(half_w width margin)

/-- Upper bound for the offset at knot `k` of `N` (lines 429-432). -/
def offsetUb (N : ℕ) (width margin : ℚ) (k : ℕ) : ℚ :=
  if k = 0 ∨ k = N - 1 then 0 else half_w width margin

/-- The possible offset vectors produced by `generate_optimal_reference_path`
(lines 444-461): on solver success `res.x`, which L-BFGS-B keeps inside the
box bounds (its contract); on reported failure, the all-zero fallback. -/
def validOffsets (N : ℕ) (width margin : ℚ) (d : ℕ → ℚ) : Prop :=
  (∀ k, k < N →
    offsetLb N width margin k ≤ d k ∧ d k ≤ offsetUb N width margin k) ∨
  (∀ k, d k = 0)

/-- C5 counterexample: with `tunnel_width = margin = 1/1000` the claimed
bound `|d_k| ≤ halfwidth - margin = -1/2000` is negative, so even the
all-zero fallback offsets — a possible output (solver failure path, lines
457-459) — violate it at every knot, while the code's actual clamp
`half_w` is `1e-6`. -/
theorem C5_counterexample_negative_bound :
    validOffsets 40 (1/1000) (1/1000) (fun _ => 0) ∧
    half_w (1/1000) (1/1000) = 1 / 10 ^ 6 ∧
    ¬ (|(0 : ℚ)| ≤ (1/1000) / 2 - 1/1000) := by
  refine ⟨Or.inr fun _ => rfl, ?_, ?_⟩
  · rw [half_w, max_eq_right (by norm_num)]
  · rw [abs_zero]
    norm_num

/-- C5 (amended): every offset vector produced by
`generate_optimal_reference_path` satisfies
`|d_k| ≤ half_w = max(halfwidth - margin, 1e-6)` at every knot, and the
first and last offsets are exactly `0`.  The original claim's bound
`halfwidth - margin` fails exactly when it is below the `1e-6` clamp
(see the counterexample); the clamped bound is what the code enforces. -/
theorem C5_offsets_within_clamped_bounds (N : ℕ) (width margin : ℚ)
    (d : ℕ → ℚ) (hd : validOffsets N width margin d) :
    (∀ k, k < N → |d k| ≤ half_w width margin) ∧
    (1 ≤ N → d 0 = 0 ∧ d (N - 1) = 0) := by
  have hpos : (0 : ℚ) < half_w width margin :=
    lt_of_lt_of_le (by norm_num) (le_max_right _ _)
  cases hd with
  | inl hbox =>
      constructor
      · intro k hk
        rcases hbox k hk with ⟨hl, hu⟩
        by_cases hend : k = 0 ∨ k = N - 1
        · rw [offsetLb, if_pos hend] at hl
          rw [offsetUb, if_pos hend] at hu
          have : d k = 0 := le_antisymm hu hl
          rw [this, abs_zero]
          exact hpos.le
        · rw [offsetLb, if_neg hend] at hl
          rw [offsetUb, if_neg hend] at hu
          exact abs_le.mpr ⟨hl, hu⟩
      · intro hN
        have h0 := hbox 0 (by omega)
        have hN1 := hbox (N - 1) (by omega)
        rw [offsetLb, if_pos (Or.inl rfl), offsetUb, if_pos (Or.inl rfl)] at h0
        rw [offsetLb, if_pos (Or.inr rfl), offsetUb, if_pos (Or.inr rfl)] at hN1
        exact ⟨le_antisymm h0.2 h0.1, le_antisymm hN1.2 hN1.1⟩
  | inr hzero =>
      refine ⟨fun k _ => ?_, fun _ => ⟨hzero 0, hzero (N - 1)⟩⟩
      rw [hzero k, abs_zero]
      exact hpos.le

/-- Witness for C5 at a concrete solver outcome. -/
theorem C5_offsets_within_clamped_bounds_witness :
    validOffsets 2 1 0 (fun _ => 0) ∧
    ((∀ k, k < 2 → |(0 : ℚ)| ≤ half_w 1 0) ∧
     (1 ≤ 2 → (0 : ℚ) = 0 ∧ (0 : ℚ) = 0)) :=
  ⟨Or.inr fun _ => rfl,
   C5_offsets_within_clamped_bounds 2 1 0 (fun _ => 0) (Or.inr fun _ => rfl)⟩

/-! ## Noise model (`single_step_motor_and_device_noise`, `noise.py`
lines 70-219; stream seeding in `CursorSimulator.__init__`,
`cursor_simulator.py` lines 111-114) -/

/-- Smallest positive normal double, `np.finfo(float).tiny = 2^(-1022)`
(`noise.py` line 116). -/
noncomputable def tinyFloat : ℝ :=
  1 / 2 ^ 1022

/-- Modelled from the spec: the sources of
`point_and_click_modules.mouse_module` and
`point_and_click_modules.upper_limb_module` are not in the repository
snapshot (only the package declaration importing them is).  Per spec §4.4
they provide the monotonic saturating gain-transfer `gain_func_can`, and
the forearm-pivot helpers `get_hand_orientation`, `rot_mat` and
`get_cursor_displacement`.  They are abstract fields here; the claims below
hold for every choice.  (`upper_limb_module.mouse_noise` is consumed only
for the ideal hand position, which feeds the non-finite fallback of lines
207-211 — an identity over the reals — and the unreturned ideal deltas of
lines 132-133, so it does not appear.) -/
structure LimbModel where
  gainFuncCan : ℝ → ℝ
  handOrientation : ℝ × ℝ → ℝ → ℝ
  rotMat : ℝ → ℝ → ℝ → ℝ × ℝ
  cursorDisplacement : ℝ × ℝ → ℝ × ℝ → ℝ → ℝ → ℝ × ℝ

open Classical in
/-- Gain clamping (lines 116-118): over the reals every value is finite,
so only the lower clamp to `tiny` remains. -/
noncomputable def clampGain (g : ℝ) : ℝ :=
  if g < tinyFloat then tinyFloat else g

/-- The clamped mouse gain for the commanded velocity (lines 110-118). -/
noncomputable def stepGain (m : LimbModel) (cvx cvy : ℝ) : ℝ :=
  clampGain (m.gainFuncCan (Real.sqrt (cvx ^ 2 + cvy ^ 2)))

/-- Device-frame velocity `v = (vx_dev[1], vy_dev[1])` (lines 120-138). -/
noncomputable def devVel (m : LimbModel) (cvx cvy : ℝ) : ℝ × ℝ :=
  (cvx * (1 / stepGain m cvx cvy), cvy * (1 / stepGain m cvx cvy))

open Classical in
/-- The velocity direction used for the noise decomposition (lines
139-144): the zero vector when the device-frame speed is zero. -/
noncomputable def velDir (m : LimbModel) (cvx cvy : ℝ) : ℝ × ℝ :=
  let v := devVel m cvx cvy
  let vn := Real.sqrt (v.1 ^ 2 + v.2 ^ 2)
  if vn = 0 then (0, 0) else (v.1 / vn, v.2 / vn)

/-- Outputs of a single noise step, in the order returned at lines 218-219:
position delta, noisy screen-frame velocity, updated hand position and hand
position delta. -/
structure NoiseStepOut where
  posDx : ℝ
  posDy : ℝ
  velX : ℝ
  velY : ℝ
  handX : ℝ
  handY : ℝ
  handDx : ℝ
  handDy : ℝ

open Classical in
/-- `single_step_motor_and_device_noise` (`noise.py` lines 70-219), with
the two standard-normal draws of lines 149-150 passed explicitly as `s1`,
`s2`.  The final non-finite guards (lines 198-211) are identities over the
reals. -/
noncomputable def singleStep (m : LimbModel)
    (cvx cvy hpx hpy nc0 nc1 interval forearm s1 s2 : ℝ) : NoiseStepOut :=
  let gain := stepGain m cvx cvy
  let v := devVel m cvx cvy
  let dir := velDir m cvx cvy
  let per : ℝ × ℝ := (-dir.2, dir.1)
  let vmag := |Real.sqrt (v.1 ^ 2 + v.2 ^ 2)|
  let noiseDir := nc0 * vmag * s1
  let noisePer := nc1 * vmag * s2
  let vxNoisy := (v.1 + noiseDir * dir.1 + noisePer * per.1) * gain
  let vyNoisy := (v.2 + noiseDir * dir.2 + noisePer * per.2) * gain
  let dx0 := (cvx + vxNoisy) / 2 * interval
  let dy0 := (cvy + vyNoisy) / 2 * interval
  let handOri := m.handOrientation (hpx, hpy) forearm
  let res :=
    if 1 / 10 ^ 10 < |dx0| ∨ 1 / 10 ^ 10 < |dy0| then
      let hd := m.rotMat dx0 dy0 (-handOri)
      let hx := hpx + hd.1
      let hy := hpy + hd.2
      let md := m.cursorDisplacement (hpx, hpy) (hx, hy) forearm gain
      (md.1, md.2, hx, hy)
    else (dx0, dy0, hpx, hpy)
  ⟨res.1, res.2.1, vxNoisy, vyNoisy, res.2.2.1, res.2.2.2,
   res.2.2.1 - hpx, res.2.2.2 - hpy⟩

/-- C8: with zero commanded velocity the noise step injects nothing: the
velocity direction used is the zero vector and, for every gain model, every
noise coefficient pair and every pair of drawn samples, the returned noisy
velocity and position delta are `(0, 0)` and the hand position is
unchanged. -/
theorem C8_zero_velocity_no_noise (m : LimbModel)
    (hpx hpy nc0 nc1 interval forearm s1 s2 : ℝ) :
    velDir m 0 0 = (0, 0) ∧
    (singleStep m 0 0 hpx hpy nc0 nc1 interval forearm s1 s2).posDx = 0 ∧
    (singleStep m 0 0 hpx hpy nc0 nc1 interval forearm s1 s2).posDy = 0 ∧
    (singleStep m 0 0 hpx hpy nc0 nc1 interval forearm s1 s2).velX = 0 ∧
    (singleStep m 0 0 hpx hpy nc0 nc1 interval forearm s1 s2).velY = 0 ∧
    (singleStep m 0 0 hpx hpy nc0 nc1 interval forearm s1 s2).handX = hpx ∧
    (singleStep m 0 0 hpx hpy nc0 nc1 interval forearm s1 s2).handY = hpy := by
  have hv : devVel m 0 0 = (0, 0) := by
    unfold devVel
    norm_num
  have hdir : velDir m 0 0 = (0, 0) := by
    unfold velDir
    rw [hv]
    norm_num
  have key : singleStep m 0 0 hpx hpy nc0 nc1 interval forearm s1 s2 =
      ⟨0, 0, 0, 0, hpx, hpy, 0, 0⟩ := by
    unfold singleStep
    rw [hv, hdir]
    norm_num
  rw [key, hdir]
  exact ⟨rfl, rfl, rfl, rfl, rfl, rfl, rfl⟩

/-- One step and recursion of the per-trajectory noise loop: each step
consumes two draws from the single pseudorandom stream `ω` starting at
position `n` (`np.random.normal`, `noise.py` lines 149-150; the stream is
seeded once per trajectory, `cursor_simulator.py` lines 111-114) and
threads the hand position (`cursor_simulator.py` lines 308-316). -/
noncomputable def noiseRun (m : LimbModel) (nc0 nc1 interval forearm : ℝ) :
    List (ℝ × ℝ) → ℝ × ℝ → (ℕ → ℝ) → ℕ → List NoiseStepOut
  | [], _, _, _ => []
  | c :: cmds, hp, ω, n =>
      let out := singleStep m c.1 c.2 hp.1 hp.2 nc0 nc1 interval forearm
        (ω n) (ω (n + 1))
      out :: noiseRun m nc0 nc1 interval forearm cmds (out.handX, out.handY) ω (n + 2)

/-- C9: two runs of the noise model from the same pseudorandom-stream state
(same draws from the same position onward) and identical inputs produce
identical outputs — every position delta, velocity and hand position of the
runs coincides.  The run consumes exactly two draws per step, so agreement
of the streams on the consumed window suffices. -/
theorem C9_noise_determinism (m : LimbModel) (nc0 nc1 interval forearm : ℝ)
    (cmds : List (ℝ × ℝ)) (ω1 ω2 : ℕ → ℝ) :
    ∀ (hp : ℝ × ℝ) (n : ℕ),
      (∀ i, i < 2 * cmds.length → ω1 (n + i) = ω2 (n + i)) →
      noiseRun m nc0 nc1 interval forearm cmds hp ω1 n =
        noiseRun m nc0 nc1 interval forearm cmds hp ω2 n := by
  induction cmds with
  | nil => intro hp n _; rfl
  | cons c cmds ih =>
      intro hp n h
      have h0 : ω1 n = ω2 n := by
        have := h 0 (by simp only [List.length_cons]; omega)
        simpa using this
      have h1 : ω1 (n + 1) = ω2 (n + 1) :=
        h 1 (by simp only [List.length_cons]; omega)
      have hrec : ∀ i, i < 2 * cmds.length → ω1 (n + 2 + i) = ω2 (n + 2 + i) := by
        intro i hi
        have h' := h (2 + i) (by simp only [List.length_cons]; omega)
        rw [show n + (2 + i) = n + 2 + i from by omega] at h'
        exact h'
      simp only [noiseRun]
      rw [h0, h1, ih _ _ hrec]

/-- A concrete instantiation of the modelled limb primitives. -/
noncomputable def constLimbModel : LimbModel :=
  ⟨fun _ => 1, fun _ _ => 0, fun _ _ _ => (0, 0), fun _ _ _ _ => (0, 0)⟩

/-- Witness for C9 at a concrete one-step run. -/
theorem C9_noise_determinism_witness :
    (∀ i, i < 2 * ([((0 : ℝ), (0 : ℝ))]).length →
      (fun _ => (0 : ℝ)) (0 + i) = (fun _ => (0 : ℝ)) (0 + i)) ∧
    noiseRun constLimbModel 0 0 1 1 [((0 : ℝ), (0 : ℝ))] (0, 0) (fun _ => 0) 0 =
      noiseRun constLimbModel 0 0 1 1 [((0 : ℝ), (0 : ℝ))] (0, 0) (fun _ => 0) 0 :=
  ⟨fun _ _ => rfl,
   C9_noise_determinism constLimbModel 0 0 1 1 [((0 : ℝ), (0 : ℝ))]
     (fun _ => 0) (fun _ => 0) (0, 0) 0 (fun _ _ => rfl)⟩

end HCS
